import Mathlib

/-!
Verification of the arexibo signage-player synchronization core.

This file gives a shallow embedding, in Lean, of the parts of the Rust
source relevant to the checked properties:

* `src/schedule.rs` — the schedule engine (`Schedule::layouts_now`,
  persistence round-trip);
* `src/xmr.rs` — the push-notification receiver (message decoding,
  expiry, action mapping);
* `src/resource.rs` — the resource cache (`Cache::new`, `has`,
  `download`, `download_http`, `download_xmds`, `purge_some`, `purge`);
* `src/xmds.rs` / `src/collect.rs` — display registration and the
  startup error classification of `Handler::new`.

Machine integers of the source (`i64`, `i32`, `u64`) are modelled as
`Int`/`Nat`: all the operations involved (comparisons, additions on
timestamps and byte counts) stay far from the wrap-around range in the
source, and no arithmetic in the modelled code depends on overflow.
Wall-clock instants (`OffsetDateTime`, `DateTime<FixedOffset>`) are
modelled as `Int` seconds since an epoch; the source only compares them
and adds second-durations, which the `time`/`chrono` libraries implement
as total orders on the underlying instant.
-/

namespace Arexibo

/-! ## Schedule engine (`src/schedule.rs`)

The Rust `Schedule` holds an optional default layout id and a vector of
`(from, to, layout_id, priority)` tuples. -/

/-- One scheduled interval: `(from, to, layout id, priority)` from
`Schedule::schedules`.  `start`/`stop` are the `fromdt`/`todt` instants. -/
structure SchedInterval where
  start : Int
  stop : Int
  layout : Int
  prio : Int
  deriving Repr, DecidableEq

/-- The parsed schedule (`struct Schedule` in `schedule.rs`). -/
structure Schedule where
  default : Option Int
  schedules : List SchedInterval
  deriving Repr, DecidableEq

/-- The matching test of `layouts_now`: `from <= now && now <= to`. -/
def SchedInterval.containsNow (iv : SchedInterval) (now : Int) : Bool :=
  decide (iv.start ≤ now) && decide (now ≤ iv.stop)

/-- One iteration of the `for` loop in `Schedule::layouts_now`: the state is
`(cur_prio, layouts)`; a matching interval with lower priority is skipped,
one with higher priority resets the accumulator, one with equal priority is
appended. -/
def layoutsNowStep (now : Int) (st : Int × List Int) (iv : SchedInterval) :
    Int × List Int :=
  if iv.containsNow now then
    if iv.prio < st.1 then st
    else if st.1 < iv.prio then (iv.prio, [iv.layout])
    else (st.1, st.2 ++ [iv.layout])
  else st

/-- `Schedule::layouts_now`, with the wall-clock instant made an explicit
argument.  `cur_prio` starts at `0` and `layouts` empty, exactly as in the
source; if no layout was accumulated the default (if any) is returned. -/
def Schedule.layoutsNow (s : Schedule) (now : Int) : List Int :=
  let st := s.schedules.foldl (layoutsNowStep now) (0, [])
  if st.2.isEmpty then
    match s.default with
    | some d => [d]
    | none => []
  else st.2

/-- The intervals of `s` whose `[from, to]` range contains `now`. -/
def Schedule.matching (s : Schedule) (now : Int) : List SchedInterval :=
  s.schedules.filter (fun iv => iv.containsNow now)

/-- Modelled from the spec's words, for comparison with
`Schedule.layoutsNow`: "returns exactly the layouts at the maximum priority
among currently-matching intervals (ties kept in document order), or the
default if none match, or empty if neither exists". -/
def Schedule.specLayoutsNow (s : Schedule) (now : Int) : List Int :=
  match s.matching now with
  | [] =>
    match s.default with
    | some d => [d]
    | none => []
  | iv :: rest =>
    let mx := rest.foldl (fun a x => max a x.prio) iv.prio
    ((iv :: rest).filter (fun x => decide (x.prio = mx))).map (·.layout)

/-- The initial accumulator is a lower bound of a priority-max fold. -/
theorem le_foldl_max_prio (l : List SchedInterval) (a : Int) :
    a ≤ l.foldl (fun b x => max b x.prio) a := by
  induction l generalizing a with
  | nil => exact le_refl a
  | cons x xs ih =>
    exact le_trans (le_max_left a x.prio) (ih (max a x.prio))

/-- A priority-max fold either returns its initial accumulator or the
priority of some member of the list. -/
theorem foldl_max_prio_attained (l : List SchedInterval) (a : Int) :
    l.foldl (fun b x => max b x.prio) a = a ∨
      ∃ x ∈ l, l.foldl (fun b x => max b x.prio) a = x.prio := by
  induction l generalizing a with
  | nil => exact Or.inl rfl
  | cons x xs ih =>
    rcases ih (max a x.prio) with h | ⟨y, hy, hval⟩
    · simp only [List.foldl_cons] at *
      rcases max_cases a x.prio with ⟨hm, _⟩ | ⟨hm, _⟩
      · exact Or.inl (by rw [h, hm])
      · exact Or.inr ⟨x, List.mem_cons_self x xs, by rw [h, hm]⟩
    · exact Or.inr ⟨y, List.mem_cons_of_mem x hy, hval⟩

/-- Closed form of the `layouts_now` loop, for any starting accumulator:
the final `cur_prio` is the max-fold of the matching priorities over the
initial one, and the final `layouts` keeps the initial list only when the
priority never rose, followed by the matching layouts at the final
priority, in document order. -/
theorem foldl_layoutsNowStep (now : Int) (l : List SchedInterval)
    (cur : Int) (ls : List Int) :
    l.foldl (layoutsNowStep now) (cur, ls) =
      (let ms := l.filter (fun iv => iv.containsNow now)
       let cur2 := ms.foldl (fun a x => max a x.prio) cur
       (cur2, (if cur2 = cur then ls else []) ++
         (ms.filter (fun x => decide (x.prio = cur2))).map (·.layout))) := by
  induction l generalizing cur ls with
  | nil => simp
  | cons iv tl ih =>
    simp only [List.foldl_cons]
    by_cases hm : iv.containsNow now
    · rcases lt_trichotomy iv.prio cur with hlt | heq | hgt
      · -- lower priority: skipped
        have hstep : layoutsNowStep now (cur, ls) iv = (cur, ls) := by
          simp [layoutsNowStep, hm, hlt]
        rw [hstep, ih]
        have hmax : max cur iv.prio = cur := max_eq_left (le_of_lt hlt)
        have hcur2le :
            cur ≤ (tl.filter (fun iv => iv.containsNow now)).foldl
              (fun a x => max a x.prio) cur := le_foldl_max_prio _ _
        simp only [List.filter_cons, hm, if_pos, List.foldl_cons, hmax]
        have hne : ¬ (iv.prio =
            (tl.filter (fun iv => iv.containsNow now)).foldl
              (fun a x => max a x.prio) cur) :=
          ne_of_lt (lt_of_lt_of_le hlt hcur2le)
        simp [List.filter_cons, hne]
      · -- equal priority: appended
        have hstep : layoutsNowStep now (cur, ls) iv =
            (cur, ls ++ [iv.layout]) := by
          simp [layoutsNowStep, hm, heq]
        rw [hstep, ih]
        have hmax : max cur iv.prio = cur := by rw [heq, max_self]
        simp only [List.filter_cons, hm, if_pos, List.foldl_cons, hmax]
        set cur2 := (tl.filter (fun iv => iv.containsNow now)).foldl
          (fun a x => max a x.prio) cur with hcur2
        by_cases hc : cur2 = cur
        · have hpe : iv.prio = cur2 := by rw [hc, heq]
          simp [hc, hpe, List.filter_cons]
        · have hpe : ¬ (iv.prio = cur2) := by rw [heq]; exact fun h => hc h.symm
          simp [hc, hpe, List.filter_cons]
      · -- higher priority: accumulator reset
        have hstep : layoutsNowStep now (cur, ls) iv =
            (iv.prio, [iv.layout]) := by
          have : ¬ iv.prio < cur := not_lt_of_gt hgt
          simp [layoutsNowStep, hm, this, hgt]
        rw [hstep, ih]
        have hmax : max cur iv.prio = iv.prio := max_eq_right (le_of_lt hgt)
        simp only [List.filter_cons, hm, if_pos, List.foldl_cons, hmax]
        set cur2 := (tl.filter (fun iv => iv.containsNow now)).foldl
          (fun a x => max a x.prio) iv.prio with hcur2
        have hlt2 : cur < cur2 :=
          lt_of_lt_of_le hgt (le_foldl_max_prio _ _)
        have hc : ¬ (cur2 = cur) := fun h => absurd h.symm (ne_of_lt hlt2)
        by_cases hpe : iv.prio = cur2
        · have hpe2 : cur2 = iv.prio := hpe.symm
          simp only [hc, hpe2, List.filter_cons, if_false, decide_True,
            decide_eq_true_eq]
          simp [List.filter_cons, hpe2]
          exact fun h => absurd h.symm (ne_of_lt hgt)
        · have hpe2 : ¬ (cur2 = iv.prio) := fun h => hpe h.symm
          simp [hc, hpe, hpe2, List.filter_cons]
    · -- not matching: skipped entirely
      have hstep : layoutsNowStep now (cur, ls) iv = (cur, ls) := by
        simp [layoutsNowStep, hm]
      rw [hstep, ih]
      simp [List.filter_cons, hm]

/-- C1 counterexample: with a single matching interval of negative priority
(layout 5, priority −1) and no default, the claim demands `[5]` (the unique
matching interval is at the maximum priority), but `layouts_now` starts its
priority scan at `0` and skips the interval, returning `[]`. -/
theorem layoutsNow_spec_cex :
    (Schedule.mk none [⟨0, 10, 5, -1⟩]).layoutsNow 3 = [] ∧
    (Schedule.mk none [⟨0, 10, 5, -1⟩]).specLayoutsNow 3 = [5] :=
  ⟨by decide, by decide⟩

/-- C1 (amended): for every schedule all of whose interval priorities are
non-negative, and every instant, `layouts_now` returns exactly the layout
ids of the currently-matching intervals at the maximum priority among all
matching intervals, in document order; if no interval matches it returns
the default layout as a singleton when one exists and the empty list
otherwise.  (Matching intervals of negative priority are skipped because
the scan starts at priority 0.) -/
theorem layoutsNow_eq_spec_of_nonneg_prio (s : Schedule) (now : Int)
    (h : ∀ iv ∈ s.schedules, 0 ≤ iv.prio) :
    s.layoutsNow now = s.specLayoutsNow now := by
  unfold Schedule.layoutsNow Schedule.specLayoutsNow
  rw [foldl_layoutsNowStep]
  cases hm : s.matching now with
  | nil =>
    have hm' : s.schedules.filter (fun iv => iv.containsNow now) = [] := hm
    simp [hm']
  | cons iv rest =>
    have hm' : s.schedules.filter (fun iv => iv.containsNow now) =
        iv :: rest := hm
    have hiv : iv ∈ s.schedules := by
      have hmem : iv ∈ s.schedules.filter (fun iv => iv.containsNow now) := by
        rw [hm']; exact List.mem_cons_self _ _
      exact List.mem_of_mem_filter hmem
    have hmax0 : max 0 iv.prio = iv.prio := max_eq_right (h iv hiv)
    simp only [hm', List.foldl_cons, hmax0]
    set mx := rest.foldl (fun a x => max a x.prio) iv.prio with hmx
    have hex : ∃ y ∈ iv :: rest, y.prio = mx := by
      rcases foldl_max_prio_attained rest iv.prio with he | ⟨x, hx, hval⟩
      · exact ⟨iv, List.mem_cons_self _ _, he.symm⟩
      · exact ⟨x, List.mem_cons_of_mem _ hx, hval.symm⟩
    obtain ⟨y, hy, hyp⟩ := hex
    have hymem : y ∈ (iv :: rest).filter (fun x => decide (x.prio = mx)) :=
      List.mem_filter.2 ⟨hy, by simp [hyp]⟩
    have hne :
        ((iv :: rest).filter (fun x => decide (x.prio = mx))).map
          (·.layout) ≠ [] := by
      intro hcontra
      rw [List.map_eq_nil_iff] at hcontra
      rw [hcontra] at hymem
      exact absurd hymem (List.not_mem_nil y)
    simp only [ite_self, List.nil_append]
    rw [if_neg (by simpa [List.isEmpty_iff] using hne)]

/-- Witness for C1's amended theorem, on the spec's own scenario (scaled
times): intervals (900–1700, layout 1, prio 1) and (1200–1300, layout 2,
prio 2) with default 10; at instant 1230 both hypotheses hold and the code
agrees with the spec reading. -/
theorem layoutsNow_eq_spec_of_nonneg_prio_witness :
    (∀ iv ∈ (Schedule.mk (some 10)
        [⟨900, 1700, 1, 1⟩, ⟨1200, 1300, 2, 2⟩]).schedules, 0 ≤ iv.prio) ∧
    (Schedule.mk (some 10)
        [⟨900, 1700, 1, 1⟩, ⟨1200, 1300, 2, 2⟩]).layoutsNow 1230 =
      (Schedule.mk (some 10)
        [⟨900, 1700, 1, 1⟩, ⟨1200, 1300, 2, 2⟩]).specLayoutsNow 1230 :=
  ⟨by decide, layoutsNow_eq_spec_of_nonneg_prio _ 1230 (by decide)⟩

/-! ## Push receiver (`src/xmr.rs`)

The XMR manager decrypts each incoming message, parses it into
`JsonMessage { action, createdDt, ttl }`, discards it when expired, and
maps the action string to a `Message` forwarded over the channel. -/

/-- The events the receiver can forward to the collect thread
(`enum Message` in `xmr.rs`): only these two constructors exist. -/
inductive Message where
  | CollectNow
  | Screenshot
  deriving Repr, DecidableEq

/-- The parsed push message (`struct JsonMessage`): action string,
creation instant (seconds), and ttl in seconds (serde default 0). -/
structure JsonMessage where
  action : String
  created : Int
  ttl : Int
  deriving Repr, DecidableEq

/-- `JsonMessage::is_expired`: `created + ttl seconds < now`. -/
def JsonMessage.isExpired (m : JsonMessage) (now : Int) : Bool :=
  decide (m.created + m.ttl < now)

/-- `JsonMessage::into_msg`: expired messages yield nothing; then the
action string selects the event (`rekeyAction` is forwarded as a
collect), and any other action is logged and dropped. -/
def JsonMessage.intoMsg (m : JsonMessage) (now : Int) : Option Message :=
  if m.isExpired now then none
  else if m.action = "collectNow" then some Message.CollectNow
  else if m.action = "rekeyAction" then some Message.CollectNow
  else if m.action = "screenShot" then some Message.Screenshot
  else none

/-- Two-digit decimal field of a timestamp. -/
def twoDigits (a b : Char) : Option Nat :=
  if a.isDigit && b.isDigit then
    some ((a.toNat - 48) * 10 + (b.toNat - 48))
  else none

/-- A surrogate instant (seconds) for parsed timestamp components; the
code only ever compares instants and adds second-durations. -/
def mkInstant (y mo d h mi se : Nat) (offsetMin : Int) : Int :=
  ((((y * 366 + mo * 31 + d) * 24 + h) * 60 + mi) * 60 + se : Int)
    - offsetMin * 60

/-- Model of chrono's `DateTime::parse_from_rfc3339` (a library call):
accepts `YYYY-MM-DDTHH:MM:SS` followed by `Z` or a `±HH:MM` offset, with
basic range validation, and rejects everything else. -/
def parseRfc3339 (s : String) : Option Int :=
  let core := fun (y1 y2 y3 y4 mo1 mo2 d1 d2 h1 h2 mi1 mi2 s1 s2 : Char)
      (offsetMin : Int) => do
    let y ← twoDigits y1 y2
    let y' ← twoDigits y3 y4
    let mo ← twoDigits mo1 mo2
    let d ← twoDigits d1 d2
    let h ← twoDigits h1 h2
    let mi ← twoDigits mi1 mi2
    let se ← twoDigits s1 s2
    if 1 ≤ mo && mo ≤ 12 && 1 ≤ d && d ≤ 31 && h < 24 && mi < 60 && se < 60
    then some (mkInstant (y * 100 + y') mo d h mi se offsetMin)
    else none
  match s.toList with
  | [y1, y2, y3, y4, '-', mo1, mo2, '-', d1, d2, 'T',
     h1, h2, ':', mi1, mi2, ':', s1, s2, 'Z'] =>
    core y1 y2 y3 y4 mo1 mo2 d1 d2 h1 h2 mi1 mi2 s1 s2 0
  | [y1, y2, y3, y4, '-', mo1, mo2, '-', d1, d2, 'T',
     h1, h2, ':', mi1, mi2, ':', s1, s2, sign, o1, o2, ':', o3, o4] => do
    let oh ← twoDigits o1 o2
    let om ← twoDigits o3 o4
    let off ← if sign = '+' then some ((oh * 60 + om : Nat) : Int)
              else if sign = '-' then some (-((oh * 60 + om : Nat) : Int))
              else none
    core y1 y2 y3 y4 mo1 mo2 d1 d2 h1 h2 mi1 mi2 s1 s2 off
  | _ => none

/-- The decrypted, structurally-decoded JSON payload of one push message,
before field conversion: the raw `createdDt` string and the optional
`ttl`.  Decryption and JSON structure errors upstream of this are
abstracted as the absence of such a payload. -/
structure RawJson where
  action : String
  createdDt : String
  ttl : Option Int
  deriving Repr, DecidableEq

/-- Outcome of `JsonMessage::new` plus serde field conversion for one
message.  `failed` is a recoverable `Err` (base64/RSA/RC4/JSON failure,
logged by `run`); `panicked` models the `map_err(|_| unimplemented!())`
in `deserialize_datetime`, which aborts the receiver thread instead of
returning an error. -/
inductive DecodeOutcome where
  | failed
  | panicked
  | parsed (m : JsonMessage)
  deriving Repr, DecidableEq

/-- Decoding one message: an upstream failure is a recoverable error; a
`createdDt` string that chrono rejects hits `unimplemented!()`. -/
def decodeMessage (dec : Option RawJson) : DecodeOutcome :=
  match dec with
  | none => DecodeOutcome.failed
  | some r =>
    match parseRfc3339 r.createdDt with
    | some t => DecodeOutcome.parsed ⟨r.action, t, r.ttl.getD 0⟩
    | none => DecodeOutcome.panicked

/-- `Manager::run` over a finite trace of incoming (decrypted-or-failed)
messages: returns the events delivered to the channel and whether the
receiver thread died.  An `Err` from `process_msg` is logged and the
loop continues; a panic terminates the thread, dropping the rest of the
trace. -/
def runReceiver (now : Int) : List (Option RawJson) → List Message × Bool
  | [] => ([], false)
  | raw :: rest =>
    match decodeMessage raw with
    | DecodeOutcome.failed => runReceiver now rest
    | DecodeOutcome.panicked => ([], true)
    | DecodeOutcome.parsed j =>
      match j.intoMsg now with
      | some ev =>
        let t := runReceiver now rest
        (ev :: t.1, t.2)
      | none => runReceiver now rest

/-- Modelled from the spec: the five-way action set the spec describes
for the push receiver (re-collect, screenshot, cache purge, webhook
trigger, command execution), which `src/xmr.rs` does not implement beyond
the first two. -/
inductive SpecEvent where
  | collect
  | screenshot
  | purge
  | webhook
  | command
  deriving Repr, DecidableEq

/-- Modelled from the spec: the action-to-event mapping claimed by the
spec, using the CMS's canonical action names for the actions that are
absent from `src/xmr.rs`. -/
def specIntoMsg (m : JsonMessage) (now : Int) : Option SpecEvent :=
  if m.isExpired now then none
  else if m.action = "collectNow" then some SpecEvent.collect
  else if m.action = "rekeyAction" then some SpecEvent.collect
  else if m.action = "screenShot" then some SpecEvent.screenshot
  else if m.action = "purgeAll" then some SpecEvent.purge
  else if m.action = "triggerWebhook" then some SpecEvent.webhook
  else if m.action = "commandAction" then some SpecEvent.command
  else none

/-- C2 counterexample: for fresh cache-purge, webhook-trigger and
command-execution push messages the spec's mapping delivers an event, but
`into_msg` delivers nothing — the delivered-event type of `xmr.rs` has no
purge/webhook/command constructor at all. -/
theorem intoMsg_action_set_cex :
    JsonMessage.intoMsg ⟨"purgeAll", 0, 10⟩ 5 = none ∧
    JsonMessage.intoMsg ⟨"triggerWebhook", 0, 10⟩ 5 = none ∧
    JsonMessage.intoMsg ⟨"commandAction", 0, 10⟩ 5 = none ∧
    specIntoMsg ⟨"purgeAll", 0, 10⟩ 5 = some SpecEvent.purge ∧
    specIntoMsg ⟨"triggerWebhook", 0, 10⟩ 5 = some SpecEvent.webhook ∧
    specIntoMsg ⟨"commandAction", 0, 10⟩ 5 = some SpecEvent.command := by
  refine ⟨rfl, rfl, rfl, rfl, rfl, rfl⟩

/-- C2 (amended): for every non-expired push message the action-to-event
mapping is the closed set {collectNow ↦ CollectNow, rekeyAction ↦
CollectNow, screenShot ↦ Screenshot}; every other action string —
including the purge/webhook/command actions the spec lists — produces no
event, and a recognized-or-dropped message never errors the receiver
loop (a dropped one leaves the loop state exactly as if it had not
arrived). -/
theorem intoMsg_closed_action_set (m : JsonMessage) (now : Int)
    (hexp : m.isExpired now = false) :
    ((m.action = "collectNow" ∨ m.action = "rekeyAction") →
      m.intoMsg now = some Message.CollectNow) ∧
    (m.action = "screenShot" → m.intoMsg now = some Message.Screenshot) ∧
    (m.action ≠ "collectNow" → m.action ≠ "rekeyAction" →
      m.action ≠ "screenShot" → m.intoMsg now = none) ∧
    (∀ (raw : Option RawJson) (rest : List (Option RawJson)),
      decodeMessage raw = DecodeOutcome.parsed m → m.intoMsg now = none →
      runReceiver now (raw :: rest) = runReceiver now rest) := by
  refine ⟨?_, ?_, ?_, ?_⟩
  · rintro (h | h) <;> simp [JsonMessage.intoMsg, hexp, h]
  · intro h
    by_cases h1 : m.action = "collectNow"
    · rw [h1] at h; exact absurd h (by decide)
    · by_cases h2 : m.action = "rekeyAction"
      · rw [h2] at h; exact absurd h (by decide)
      · simp [JsonMessage.intoMsg, hexp, h1, h2, h]
  · intro h1 h2 h3
    simp [JsonMessage.intoMsg, hexp, h1, h2, h3]
  · intro raw rest hdec hnone
    simp [runReceiver, hdec, hnone]

/-- Witness for C2's amended theorem at the fresh message
`{action := "webHookUnknown", created := 0, ttl := 10}` observed at
instant 5. -/
theorem intoMsg_closed_action_set_witness :
    JsonMessage.isExpired ⟨"webHookUnknown", 0, 10⟩ 5 = false ∧
    (JsonMessage.intoMsg ⟨"webHookUnknown", 0, 10⟩ 5 = none) :=
  ⟨by decide,
   (intoMsg_closed_action_set ⟨"webHookUnknown", 0, 10⟩ 5 (by decide)).2.2.1
     (by decide) (by decide) (by decide)⟩

/-- C7: a push message whose `createdDt + ttl` lies strictly before the
wall-clock instant at processing time is never delivered: `into_msg`
returns nothing, and at the receiver-loop level the message leaves the
delivered-event trace exactly as if it had not arrived. -/
theorem expired_msg_not_delivered (m : JsonMessage) (now : Int)
    (h : m.created + m.ttl < now) :
    m.intoMsg now = none ∧
    (∀ (raw : Option RawJson) (rest : List (Option RawJson)),
      decodeMessage raw = DecodeOutcome.parsed m →
      runReceiver now (raw :: rest) = runReceiver now rest) := by
  have hexp : m.isExpired now = true := by
    simp [JsonMessage.isExpired, h]
  constructor
  · simp [JsonMessage.intoMsg, hexp]
  · intro raw rest hdec
    simp [runReceiver, hdec, JsonMessage.intoMsg, hexp]

/-- Witness for C7 at the message `{action := "collectNow",
created := 0, ttl := 10}` observed at instant 11. -/
theorem expired_msg_not_delivered_witness :
    ((0 : Int) + 10 < 11) ∧
    JsonMessage.intoMsg ⟨"collectNow", 0, 10⟩ 11 = none :=
  ⟨by decide,
   (expired_msg_not_delivered ⟨"collectNow", 0, 10⟩ 11 (by decide)).1⟩

/-- C3 (the claim is right, the code panics): a push message that
decrypts and structurally parses but whose `createdDt` is not valid
RFC3339 hits `unimplemented!()` in `deserialize_datetime`, killing the
receiver thread — later messages are never processed — whereas a
decryption failure is logged and the loop continues to the next
message. -/
theorem receiver_panics_on_bad_createdDt :
    decodeMessage (some ⟨"collectNow", "garbage", some 60⟩) =
      DecodeOutcome.panicked ∧
    runReceiver 20 [some ⟨"collectNow", "garbage", some 60⟩,
      some ⟨"screenShot", "2024-05-01T12:00:00Z", none⟩] = ([], true) ∧
    runReceiver 20 [none,
      some ⟨"screenShot", "2024-05-01T12:00:00Z", none⟩] =
      ([Message.Screenshot], false) := by
  refine ⟨by decide, by decide, ?_⟩
  decide

/-! ## Resource cache (`src/resource.rs`)

The cache owns a directory of content files plus a persisted metadata
index (`content.json`).  The in-memory `HashMap<String, Resource>` is
modelled as an association list (`removeKey` removes every pair with the
key, `insertKey` replaces in place or appends); the set of data files on
disk is modelled as a list of names; the persisted index is the parsed
content of `content.json` (`none` when absent or corrupt).  MD5 is a
library primitive and is modelled as an abstract byte-list function. -/

/-- `LayoutInfo` of `resource.rs`. -/
structure LayoutInfo where
  id : Int
  md5 : List Nat
  sizeX : Int
  sizeY : Int
  code : Option String
  translatedVersion : Nat
  deriving Repr, DecidableEq

/-- `MediaInfo` of `resource.rs`. -/
structure MediaInfo where
  id : Int
  size : Nat
  md5 : List Nat
  deriving Repr, DecidableEq

/-- `ResourceInfo` of `resource.rs`.  `duration` is an `Option<f64>` in
the source; no checked property depends on its value, and its marker
parse is modelled on integral values. -/
structure ResourceInfo where
  id : Int
  layoutid : Int
  regionid : Int
  updated : Int
  duration : Option Int
  numitems : Option Int
  deriving Repr, DecidableEq

/-- `enum Resource`: one cache-index entry. -/
inductive Resource where
  | layout (info : LayoutInfo)
  | media (info : MediaInfo)
  | resource (info : ResourceInfo)
  deriving Repr, DecidableEq

/-- `enum ReqFile`: one required-file descriptor from the CMS; `typ` is
only ever `"media"` or `"layout"` in the source. -/
inductive ReqFile where
  | file (id : Int) (typ : String) (size : Nat) (md5 : List Nat)
      (http : Bool) (path : String) (name : String) (code : Option String)
  | resource (id : Int) (layoutid : Int) (regionid : Int)
      (mediaid : Int) (updated : Int)
  deriving Repr, DecidableEq

/-- `pub const TRANSLATOR_VERSION: u32 = 0` from `src/layout.rs`
(0 marks development mode in the load-time validity check). -/
def TRANSLATOR_VERSION : Nat := 0

/-- Association-list lookup, modelling `HashMap::get`. -/
def lookupKey (l : List (String × Resource)) (k : String) : Option Resource :=
  (l.find? (fun p => decide (p.1 = k))).map (·.2)

/-- Association-list membership, modelling `HashMap::contains_key`. -/
def containsKey (l : List (String × Resource)) (k : String) : Bool :=
  l.any (fun p => decide (p.1 = k))

/-- Association-list insertion, modelling `HashMap::insert`. -/
def insertKey : List (String × Resource) → String → Resource →
    List (String × Resource)
  | [], k, v => [(k, v)]
  | p :: t, k, v => if p.1 = k then (k, v) :: t else p :: insertKey t k v

/-- Association-list removal, modelling `HashMap::remove`. -/
def removeKey (l : List (String × Resource)) (k : String) :
    List (String × Resource) :=
  l.filter (fun p => decide (p.1 ≠ k))

/-- Adding a file to the on-disk set (`File::create` / `fs::write`). -/
def addName (l : List String) (n : String) : List String :=
  if n ∈ l then l else n :: l

/-- Removing a file from the on-disk set (`fs::remove_file`). -/
def removeName (l : List String) (n : String) : List String :=
  l.filter (fun m => decide (m ≠ n))

/-- The cache's observable state: the in-memory index, the persisted
index (the parse of `content.json`, `none` when absent), and the set of
data files on disk. -/
structure CacheState where
  content : List (String × Resource)
  persisted : Option (List (String × Resource))
  disk : List String
  deriving Repr, DecidableEq

/-- The index never tracks a file that is absent from disk. -/
def IndexOnDisk (st : CacheState) : Prop :=
  ∀ p ∈ st.content, p.1 ∈ st.disk

instance (st : CacheState) : Decidable (IndexOnDisk st) :=
  inferInstanceAs (Decidable (∀ p ∈ st.content, p.1 ∈ st.disk))

/-- `Cache::new`: with `clear` the directory is wiped; the saved index
(if readable) is pruned of entries whose file is missing and of layout
entries with a stale translator version. -/
def cacheNew (saved : Option (List (String × Resource)))
    (disk : List String) (clear : Bool) : CacheState :=
  let dirFiles := if clear then [] else disk
  let savedIdx := if clear then none else saved
  let content :=
    match savedIdx with
    | none => []
    | some c =>
      (c.filter (fun p => decide (p.1 ∈ dirFiles))).filter
        (fun p =>
          match p.2 with
          | Resource.layout l =>
            decide (TRANSLATOR_VERSION ≠ 0) &&
              decide (l.translatedVersion = TRANSLATOR_VERSION)
          | _ => true)
  { content := content, persisted := savedIdx, disk := dirFiles }

/-- `Cache::get_layout`: index lookup under `"{id}.xlf"`. -/
def getLayout (st : CacheState) (id : Int) : Option LayoutInfo :=
  match lookupKey st.content (toString id ++ ".xlf") with
  | some (Resource.layout info) => some info
  | _ => none

/-- `Cache::get_media`: index lookup under the stored filename. -/
def getMedia (st : CacheState) (name : String) : Option MediaInfo :=
  match lookupKey st.content name with
  | some (Resource.media info) => some info
  | _ => none

/-- `Cache::get_resource`: index lookup under `"{id}.html"`. -/
def getResource (st : CacheState) (id : Int) : Option ResourceInfo :=
  match lookupKey st.content (toString id ++ ".html") with
  | some (Resource.resource info) => some info
  | _ => none

/-- `Cache::has`: a pure index lookup comparing the stored hash (for
files) or the stored `updated` stamp (for dynamic resources) with the
demanded one. -/
def cacheHas (st : CacheState) (req : ReqFile) : Bool :=
  match req with
  | ReqFile.resource id _ _ _ updated =>
    match getResource st id with
    | some info => decide (info.updated = updated)
    | none => false
  | ReqFile.file id typ _ md5 _ _ name _ =>
    if typ = "layout" then
      match getLayout st id with
      | some info => decide (info.md5 = md5)
      | none => false
    else
      match getMedia st name with
      | some info => decide (info.md5 = md5)
      | none => false

/-- Outcome of one `Cache::save` call (`resource.rs`): `ok` (the index
was written to `content.json`); `failCreate` (`fs::File::create` failed,
the old persisted file intact); `failWrite` (the file was created —
truncating the old one — but serialization failed, so no parseable
persisted index remains). -/
inductive SaveResult where
  | ok
  | failCreate
  | failWrite
  deriving Repr, DecidableEq

/-- `Cache::save`: serialize the in-memory index into `content.json`;
fallible, with the two failure modes of `SaveResult`. -/
def applySave : SaveResult → CacheState → CacheState × Except Unit Unit
  | SaveResult.ok, st =>
    ({ st with persisted := some st.content }, Except.ok ())
  | SaveResult.failCreate, st => (st, Except.error ())
  | SaveResult.failWrite, st =>
    ({ st with persisted := none }, Except.error ())

/-- The environment of one `Cache::download` call: the MD5 function, the
outcome of the direct-HTTP transport (`none`: the GET itself failed and
no file was created; `some none`: the file was created but the body copy
failed midway; `some (some body)`: the body was fully retrieved), the
chunked-RPC oracle keyed by byte offset, the external layout translator,
the rendered-resource fetch, and the outcome of the index save that ends
a successful fetch. -/
structure DlEnv where
  hash : List Nat → List Nat
  httpRes : Option (Option (List Nat))
  chunks : Nat → Except Unit (List Nat)
  translate : Except Unit (Int × Int)
  resText : Except Unit String
  save : SaveResult

/-- `Cache::download_http`: fetch, stream into the file while hashing,
then `ensure!(hash == md5)`.  Returns the verified body on success. -/
def downloadHttp (env : DlEnv) (st : CacheState) (md5 : List Nat)
    (name : String) : CacheState × Except Unit (List Nat) :=
  match env.httpRes with
  | none => (st, Except.error ())
  | some none => ({ st with disk := addName st.disk name }, Except.error ())
  | some (some body) =>
    let st' := { st with disk := addName st.disk name }
    if env.hash body = md5 then (st', Except.ok body)
    else (st', Except.error ())

/-- The `while got_size < size` loop of `Cache::download_xmds`, with an
explicit fuel bound: `none` means the loop has not terminated within the
given number of iterations.  Each iteration requests the chunk at the
current offset, appends it, and advances by its length. -/
def xmdsLoop (env : DlEnv) (size : Nat) :
    Nat → Nat → List Nat → Option (Except Unit (List Nat))
  | 0, _, _ => none
  | fuel + 1, got, acc =>
    if size ≤ got then some (Except.ok acc)
    else
      match env.chunks got with
      | Except.error e => some (Except.error e)
      | Except.ok chunk => xmdsLoop env size fuel (got + chunk.length) (acc ++ chunk)

/-- `Cache::download_xmds`: create the file, run the chunk loop, then
`ensure!(hash == md5)`.  Returns the verified bytes on success. -/
def downloadXmds (env : DlEnv) (fuel : Nat) (st : CacheState) (size : Nat)
    (md5 : List Nat) (name : String) :
    Option (CacheState × Except Unit (List Nat)) :=
  let st' := { st with disk := addName st.disk name }
  match xmdsLoop env size fuel 0 [] with
  | none => none
  | some (Except.error e) => some (st', Except.error e)
  | some (Except.ok acc) =>
    some (st', if env.hash acc = md5 then Except.ok acc else Except.error ())

/-- The fetch stage of the `File` arm: the hinted HTTP transport first,
falling back to chunked RPC on any HTTP failure, else chunked directly. -/
def fetchFile (env : DlEnv) (fuel : Nat) (st : CacheState) (size : Nat)
    (md5 : List Nat) (http : Bool) (name : String) :
    Option (CacheState × Except Unit (List Nat)) :=
  if http then
    match downloadHttp env st md5 name with
    | (st1, Except.ok bytes) => some (st1, Except.ok bytes)
    | (st1, Except.error _) => downloadXmds env fuel st1 size md5 name
  else downloadXmds env fuel st size md5 name

/-- The `ReqFile::File` arm of `Cache::download`: fetch, then for a
layout run the external translator (its rendered geometry stored), insert
the typed entry, and run the fallible `self.save()?` — a save failure
returns the error with the in-memory index already mutated.  `none`
models a chunk loop that never terminates. -/
def downloadFile (env : DlEnv) (fuel : Nat) (st : CacheState) (id : Int)
    (typ : String) (size : Nat) (md5 : List Nat) (http : Bool)
    (name : String) (code : Option String) :
    Option (CacheState × Except Unit (List Nat)) :=
  match fetchFile env fuel st size md5 http name with
  | none => none
  | some (st2, Except.error e) => some (st2, Except.error e)
  | some (st2, Except.ok bytes) =>
    if typ = "layout" then
      match env.translate with
      | Except.error e => some (st2, Except.error e)
      | Except.ok wh =>
        let content' := insertKey st2.content name
          (Resource.layout ⟨id, md5, wh.1, wh.2, code, TRANSLATOR_VERSION⟩)
        match applySave env.save
          { content := content', persisted := st2.persisted,
            disk := addName st2.disk (name ++ ".html") } with
        | (st4, Except.ok _) => some (st4, Except.ok bytes)
        | (st4, Except.error e) => some (st4, Except.error e)
    else
      let content' := insertKey st2.content name
        (Resource.media ⟨id, size, md5⟩)
      match applySave env.save { st2 with content := content' } with
      | (st4, Except.ok _) => some (st4, Except.ok bytes)
      | (st4, Except.error e) => some (st4, Except.error e)

/-- The duration/item-count marker scan of the `Resource` arm: text
between the first occurrence of the marker and the following `" -->"`. -/
def extractMarker (marker data : String) : Option Int :=
  match data.splitOn marker with
  | _ :: after :: _ =>
    match after.splitOn " -->" with
    | inner :: _ :: _ => inner.toInt?
    | _ => none
  | _ => none

/-- The `ReqFile::Resource` arm of `Cache::download`: fetch the rendered
text, write it as `"{id}.html"`, extract the optional hints, insert the
entry and run the fallible `self.save()?` (no hash check; versioned by
`updated`). -/
def downloadResource (env : DlEnv) (st : CacheState)
    (id layoutid regionid _mediaid updated : Int) :
    CacheState × Except Unit Unit :=
  match env.resText with
  | Except.error e => (st, Except.error e)
  | Except.ok data =>
    let fname := toString id ++ ".html"
    let info : ResourceInfo :=
      ⟨id, layoutid, regionid, updated,
        extractMarker "<!-- DURATION=" data,
        extractMarker "<!-- NUMITEMS=" data⟩
    let content' := insertKey st.content fname (Resource.resource info)
    applySave env.save
      { content := content', persisted := st.persisted,
        disk := addName st.disk fname }

/-- `Cache::download`, dispatching on the descriptor. -/
def cacheDownload (env : DlEnv) (fuel : Nat) (st : CacheState)
    (req : ReqFile) : Option (CacheState × Except Unit Unit) :=
  match req with
  | ReqFile.resource id layoutid regionid mediaid updated =>
    some (downloadResource env st id layoutid regionid mediaid updated)
  | ReqFile.file id typ size md5 http _path name code =>
    match downloadFile env fuel st id typ size md5 http name code with
    | none => none
    | some (st', Except.error e) => some (st', Except.error e)
    | some (st', Except.ok _) => some (st', Except.ok ())

/-- The `for name in list` loop of `Cache::purge_some`: a tracked name's
file is removed (and the entry dropped) when the filesystem cooperates;
a removal failure propagates immediately.  `rm` tells whether
`fs::remove_file` succeeds for a name. -/
def purgeSomeLoop (rm : String → Bool) (st : CacheState) (changed : Bool) :
    List String → CacheState × Bool × Except Unit Unit
  | [] => (st, changed, Except.ok ())
  | name :: rest =>
    if containsKey st.content name then
      if rm name then
        purgeSomeLoop rm
          { st with content := removeKey st.content name,
                    disk := removeName st.disk name } true rest
      else (st, changed, Except.error ())
    else purgeSomeLoop rm st changed rest

/-- `Cache::purge_some`: run the loop, then persist the index when
anything changed. -/
def purgeSome (rm : String → Bool) (st : CacheState) (names : List String) :
    CacheState × Except Unit Unit :=
  match purgeSomeLoop rm st false names with
  | (st', true, Except.ok _) =>
    ({ st' with persisted := some st'.content }, Except.ok ())
  | (st', false, Except.ok _) => (st', Except.ok ())
  | (st', _, Except.error e) => (st', Except.error e)

/-- The `read_dir` removal loop of `Cache::purge`: deletes files in
directory order, aborting on the first failure and leaving the remaining
files in place. -/
def purgeAllLoop (rm : String → Bool) : List String → List String × Bool
  | [] => ([], true)
  | n :: rest =>
    if rm n then purgeAllLoop rm rest
    else (n :: rest, false)

/-- `Cache::purge`: remove every file, then clear and persist the index;
a removal failure propagates before the index is touched. -/
def purgeAll (rm : String → Bool) (st : CacheState) :
    CacheState × Except Unit Unit :=
  match purgeAllLoop rm st.disk with
  | (_, true) =>
    ({ content := [], persisted := some [], disk := [] }, Except.ok ())
  | (disk', false) => ({ st with disk := disk' }, Except.error ())

theorem mem_addName_of_mem {l : List String} {a n : String} (h : a ∈ l) :
    a ∈ addName l n := by
  unfold addName
  split
  · exact h
  · exact List.mem_cons_of_mem _ h

theorem self_mem_addName (l : List String) (n : String) : n ∈ addName l n := by
  unfold addName
  split
  · assumption
  · exact List.mem_cons_self _ _

theorem mem_insertKey {l : List (String × Resource)} {k : String}
    {v : Resource} {p : String × Resource} (h : p ∈ insertKey l k v) :
    p = (k, v) ∨ p ∈ l := by
  induction l with
  | nil => simpa [insertKey] using h
  | cons q t ih =>
    unfold insertKey at h
    split at h
    · rcases List.mem_cons.1 h with h1 | h1
      · exact Or.inl h1
      · exact Or.inr (List.mem_cons_of_mem _ h1)
    · rcases List.mem_cons.1 h with h1 | h1
      · exact Or.inr (h1 ▸ List.mem_cons_self _ _)
      · rcases ih h1 with h2 | h2
        · exact Or.inl h2
        · exact Or.inr (List.mem_cons_of_mem _ h2)

theorem lookupKey_insertKey_self (l : List (String × Resource)) (k : String)
    (v : Resource) : lookupKey (insertKey l k v) k = some v := by
  induction l with
  | nil => simp [insertKey, lookupKey]
  | cons q t ih =>
    unfold insertKey
    split
    · simp [lookupKey]
    · rename_i hne
      unfold lookupKey at ih ⊢
      simp only [List.find?]
      rw [decide_eq_false hne]
      exact ih

theorem mem_removeKey {l : List (String × Resource)} {k : String}
    {p : String × Resource} (h : p ∈ removeKey l k) : p ∈ l ∧ p.1 ≠ k := by
  unfold removeKey at h
  have h2 := List.mem_filter.1 h
  exact ⟨h2.1, by simpa using h2.2⟩

theorem mem_removeName {l : List String} {n a : String}
    (h : a ∈ removeName l n) : a ∈ l ∧ a ≠ n := by
  unfold removeName at h
  have h2 := List.mem_filter.1 h
  exact ⟨h2.1, by simpa using h2.2⟩

/-- State effect of `download_http`: the index is untouched, the disk
only grows, and a success both leaves the file on disk and certifies the
hash of the returned body. -/
theorem downloadHttp_state (env : DlEnv) (st : CacheState) (md5 : List Nat)
    (name : String) (st' : CacheState) (r : Except Unit (List Nat))
    (h : downloadHttp env st md5 name = (st', r)) :
    st'.content = st.content ∧ st'.persisted = st.persisted ∧
    (∀ a ∈ st.disk, a ∈ st'.disk) ∧
    (∀ bytes, r = Except.ok bytes →
      name ∈ st'.disk ∧ env.hash bytes = md5) := by
  unfold downloadHttp at h
  rcases henv : env.httpRes with _ | ⟨_ | body⟩ <;> rw [henv] at h
  · cases h
    exact ⟨rfl, rfl, fun a ha => ha, fun bytes hb => by cases hb⟩
  · cases h
    exact ⟨rfl, rfl, fun a ha => mem_addName_of_mem ha,
      fun bytes hb => by cases hb⟩
  · by_cases hh : env.hash body = md5 <;> simp [hh] at h
    · rcases h with ⟨h1, h2⟩
      subst h1
      refine ⟨rfl, rfl, fun a ha => mem_addName_of_mem ha, ?_⟩
      intro bytes hb
      rw [← h2] at hb
      cases hb
      exact ⟨self_mem_addName _ _, hh⟩
    · rcases h with ⟨h1, h2⟩
      subst h1
      exact ⟨rfl, rfl, fun a ha => mem_addName_of_mem ha,
        fun bytes hb => by rw [← h2] at hb; cases hb⟩

/-- State effect of `download_xmds`: when the chunk loop terminates, the
index is untouched, the disk only grows, the created file is on disk,
and a success certifies the hash of the accumulated bytes. -/
theorem downloadXmds_state (env : DlEnv) (fuel : Nat) (st : CacheState)
    (size : Nat) (md5 : List Nat) (name : String) (st' : CacheState)
    (r : Except Unit (List Nat))
    (h : downloadXmds env fuel st size md5 name = some (st', r)) :
    st'.content = st.content ∧ st'.persisted = st.persisted ∧
    (∀ a ∈ st.disk, a ∈ st'.disk) ∧ name ∈ st'.disk ∧
    (∀ bytes, r = Except.ok bytes → env.hash bytes = md5) := by
  unfold downloadXmds at h
  rcases hl : xmdsLoop env size fuel 0 [] with _ | ⟨e⟩ | ⟨acc⟩ <;>
    rw [hl] at h <;> simp at h
  · rcases h with ⟨h1, h2⟩
    subst h1
    exact ⟨rfl, rfl, fun a ha => mem_addName_of_mem ha,
      self_mem_addName _ _, fun bytes hb => by rw [← h2] at hb; cases hb⟩
  · rcases h with ⟨h1, h2⟩
    subst h1
    refine ⟨rfl, rfl, fun a ha => mem_addName_of_mem ha,
      self_mem_addName _ _, ?_⟩
    intro bytes hb
    rw [← h2] at hb
    by_cases hh : env.hash acc = md5 <;> simp [hh] at hb
    rw [← hb]
    exact hh

/-- State effect of the fetch stage of the `File` arm (HTTP with chunked
fallback, or chunked directly). -/
theorem downloadFile_fetch_state (env : DlEnv) (fuel : Nat)
    (st : CacheState) (size : Nat) (md5 : List Nat) (http : Bool)
    (name : String) (st2 : CacheState) (r : Except Unit (List Nat))
    (h : fetchFile env fuel st size md5 http name = some (st2, r)) :
    st2.content = st.content ∧ st2.persisted = st.persisted ∧
    (∀ a ∈ st.disk, a ∈ st2.disk) ∧
    (∀ bytes, r = Except.ok bytes →
      name ∈ st2.disk ∧ env.hash bytes = md5) := by
  unfold fetchFile at h
  by_cases hhttp : http <;> simp [hhttp] at h
  · rcases hfetch : downloadHttp env st md5 name with ⟨st1, r1⟩
    rw [hfetch] at h
    rcases r1 with e1 | bytes1
    · simp at h
      obtain ⟨c1, p1, d1, _⟩ := downloadHttp_state env st md5 name st1
        (Except.error e1) hfetch
      obtain ⟨c2, p2, d2, dn2, hb2⟩ := downloadXmds_state env fuel st1 size
        md5 name st2 r h
      exact ⟨c2.trans c1, p2.trans p1, fun a ha => d2 a (d1 a ha),
        fun bytes hb => ⟨dn2, hb2 bytes hb⟩⟩
    · simp at h
      obtain ⟨h1, h2⟩ := h
      obtain ⟨c1, p1, d1, hok⟩ := downloadHttp_state env st md5 name st1
        (Except.ok bytes1) hfetch
      subst h1
      refine ⟨c1, p1, d1, ?_⟩
      intro bytes hb
      rw [← h2] at hb
      injection hb with hb'
      subst hb'
      exact hok bytes1 rfl
  · obtain ⟨c2, p2, d2, dn2, hb2⟩ := downloadXmds_state env fuel st size md5
      name st2 r h
    exact ⟨c2, p2, d2, fun bytes hb => ⟨dn2, hb2 bytes hb⟩⟩

/-- State effect of the whole `File` arm: the disk only grows; an error
return leaves both index forms untouched (a fetch/translate failure)
*or* — when the post-insert `save()?` failed — leaves the in-memory index
holding exactly the hash-verified entry, with the file on disk; a success
certifies the hash of the accepted bytes, leaves the file on disk,
persists the index, and inserts exactly the typed entry built from the
descriptor. -/
theorem downloadFile_state (env : DlEnv) (fuel : Nat) (st : CacheState)
    (id : Int) (typ : String) (size : Nat) (md5 : List Nat) (http : Bool)
    (name : String) (code : Option String) (st' : CacheState)
    (r : Except Unit (List Nat))
    (h : downloadFile env fuel st id typ size md5 http name code =
      some (st', r)) :
    (∀ a ∈ st.disk, a ∈ st'.disk) ∧
    (∀ e, r = Except.error e →
      (st'.content = st.content ∧ st'.persisted = st.persisted) ∨
      (name ∈ st'.disk ∧ ∃ bytes, env.hash bytes = md5 ∧
        ((typ = "layout" → ∃ wh : Int × Int,
            st'.content = insertKey st.content name
              (Resource.layout ⟨id, md5, wh.1, wh.2, code,
                TRANSLATOR_VERSION⟩)) ∧
         (¬ typ = "layout" → st'.content = insertKey st.content name
            (Resource.media ⟨id, size, md5⟩))))) ∧
    (∀ bytes, r = Except.ok bytes →
      env.hash bytes = md5 ∧ name ∈ st'.disk ∧
      st'.persisted = some st'.content ∧
      ((typ = "layout" → ∃ wh : Int × Int,
          st'.content = insertKey st.content name
            (Resource.layout ⟨id, md5, wh.1, wh.2, code, TRANSLATOR_VERSION⟩)) ∧
       (¬ typ = "layout" → st'.content = insertKey st.content name
          (Resource.media ⟨id, size, md5⟩)))) := by
  unfold downloadFile at h
  rcases hf : fetchFile env fuel st size md5 http name with _ | ⟨st2, r2⟩ <;>
    rw [hf] at h
  · cases h
  obtain ⟨c2, p2, d2, hok2⟩ := downloadFile_fetch_state env fuel st size md5
    http name st2 r2 hf
  rcases r2 with e2 | bytes2
  · simp at h
    obtain ⟨h1, h2⟩ := h
    subst h1
    refine ⟨d2, ?_, ?_⟩
    · intro e he
      exact Or.inl ⟨c2, p2⟩
    · intro bytes hb
      rw [← h2] at hb
      cases hb
  · obtain ⟨hon, hhash⟩ := hok2 bytes2 rfl
    simp at h
    by_cases htyp : typ = "layout" <;> simp [htyp] at h
    · rcases htr : env.translate with e3 | wh <;> rw [htr] at h <;> simp at h
      · obtain ⟨h1, h2⟩ := h
        subst h1
        refine ⟨d2, ?_, ?_⟩
        · intro e he
          exact Or.inl ⟨c2, p2⟩
        · intro bytes hb
          rw [← h2] at hb
          cases hb
      · rcases hsv : env.save with _ | _ | _ <;> rw [hsv] at h <;>
          simp [applySave] at h <;> obtain ⟨h1, h2⟩ := h <;> subst h1
        · refine ⟨?_, ?_, ?_⟩
          · intro a ha
            exact mem_addName_of_mem (d2 a ha)
          · intro e he
            rw [← h2] at he
            cases he
          · intro bytes hb
            rw [← h2] at hb
            injection hb with hb'
            subst hb'
            refine ⟨hhash, mem_addName_of_mem hon, rfl, ?_, ?_⟩
            · intro _
              refine ⟨wh, ?_⟩
              rw [c2]
            · intro hc
              exact absurd htyp hc
        · refine ⟨?_, ?_, ?_⟩
          · intro a ha
            exact mem_addName_of_mem (d2 a ha)
          · intro e he
            refine Or.inr ⟨mem_addName_of_mem hon, bytes2, hhash, ?_, ?_⟩
            · intro _
              refine ⟨wh, ?_⟩
              rw [c2]
            · intro hc
              exact absurd htyp hc
          · intro bytes hb
            rw [← h2] at hb
            cases hb
        · refine ⟨?_, ?_, ?_⟩
          · intro a ha
            exact mem_addName_of_mem (d2 a ha)
          · intro e he
            refine Or.inr ⟨mem_addName_of_mem hon, bytes2, hhash, ?_, ?_⟩
            · intro _
              refine ⟨wh, ?_⟩
              rw [c2]
            · intro hc
              exact absurd htyp hc
          · intro bytes hb
            rw [← h2] at hb
            cases hb
    · rcases hsv : env.save with _ | _ | _ <;> rw [hsv] at h <;>
        simp [applySave] at h <;> obtain ⟨h1, h2⟩ := h <;> subst h1
      · refine ⟨?_, ?_, ?_⟩
        · intro a ha
          exact d2 a ha
        · intro e he
          rw [← h2] at he
          cases he
        · intro bytes hb
          rw [← h2] at hb
          injection hb with hb'
          subst hb'
          refine ⟨hhash, hon, rfl, ?_, ?_⟩
          · intro hc
            exact absurd hc htyp
          · intro _
            rw [c2]
      · refine ⟨?_, ?_, ?_⟩
        · intro a ha
          exact d2 a ha
        · intro e he
          refine Or.inr ⟨hon, bytes2, hhash, ?_, ?_⟩
          · intro hc
            exact absurd hc htyp
          · intro _
            rw [c2]
        · intro bytes hb
          rw [← h2] at hb
          cases hb
      · refine ⟨?_, ?_, ?_⟩
        · intro a ha
          exact d2 a ha
        · intro e he
          refine Or.inr ⟨hon, bytes2, hhash, ?_, ?_⟩
          · intro hc
            exact absurd hc htyp
          · intro _
            rw [c2]
        · intro bytes hb
          rw [← h2] at hb
          cases hb

/-- C4: the hash verification gates every index mutation.  If the bytes
retrieved for a required file hash to a value different from the demanded
hash — over the chunked transport directly, or over HTTP with the chunked
fallback also failing verification — then `Cache::download` returns an
error with both the in-memory index and its persisted form exactly as
before the call, because the `ensure!` fires before any insert or save.
A success certifies the hash of the accepted bytes, and any error return
leaves the index either untouched or (only when the post-insert `save()?`
failed) holding exactly a hash-verified entry: no entry is ever inserted
before its hash has been verified. -/
theorem download_hash_mismatch_unchanged (env : DlEnv) (fuel : Nat)
    (st : CacheState) (id : Int) (typ : String) (size : Nat)
    (md5 : List Nat) (name : String) (code : Option String) :
    (∀ acc, xmdsLoop env size fuel 0 [] = some (Except.ok acc) →
      env.hash acc ≠ md5 →
      ∃ st', downloadFile env fuel st id typ size md5 false name code =
          some (st', Except.error ()) ∧
        st'.content = st.content ∧ st'.persisted = st.persisted) ∧
    (∀ st1 e acc, downloadHttp env st md5 name = (st1, Except.error e) →
      xmdsLoop env size fuel 0 [] = some (Except.ok acc) →
      env.hash acc ≠ md5 →
      ∃ st', downloadFile env fuel st id typ size md5 true name code =
          some (st', Except.error ()) ∧
        st'.content = st.content ∧ st'.persisted = st.persisted) ∧
    (∀ http st' bytes,
      downloadFile env fuel st id typ size md5 http name code =
        some (st', Except.ok bytes) → env.hash bytes = md5) ∧
    (∀ http st' r,
      downloadFile env fuel st id typ size md5 http name code =
        some (st', r) →
      st'.content = st.content ∨
      ∃ bytes, env.hash bytes = md5 ∧
        ((typ = "layout" → ∃ wh : Int × Int,
            st'.content = insertKey st.content name
              (Resource.layout ⟨id, md5, wh.1, wh.2, code,
                TRANSLATOR_VERSION⟩)) ∧
         (¬ typ = "layout" → st'.content = insertKey st.content name
            (Resource.media ⟨id, size, md5⟩)))) := by
  have hxm : ∀ (st0 : CacheState) acc,
      xmdsLoop env size fuel 0 [] = some (Except.ok acc) →
      env.hash acc ≠ md5 →
      downloadXmds env fuel st0 size md5 name =
        some ({ st0 with disk := addName st0.disk name },
          Except.error ()) := by
    intro st0 acc hloop hne
    unfold downloadXmds
    rw [hloop]
    simp [hne]
  refine ⟨?_, ?_, ?_, ?_⟩
  · intro acc hloop hne
    have hff : fetchFile env fuel st size md5 false name =
        downloadXmds env fuel st size md5 name := by
      unfold fetchFile
      simp
    refine ⟨{ st with disk := addName st.disk name }, ?_, rfl, rfl⟩
    unfold downloadFile
    rw [hff, hxm st acc hloop hne]
  · intro st1 e acc hhttp hloop hne
    have hff : fetchFile env fuel st size md5 true name =
        downloadXmds env fuel st1 size md5 name := by
      unfold fetchFile
      rw [hhttp]
      simp
    refine ⟨{ st1 with disk := addName st1.disk name }, ?_, ?_, ?_⟩
    · unfold downloadFile
      rw [hff, hxm st1 acc hloop hne]
    · exact (downloadHttp_state env st md5 name st1 (Except.error e)
        hhttp).1
    · exact (downloadHttp_state env st md5 name st1 (Except.error e)
        hhttp).2.1
  · intro http st' bytes h
    exact ((downloadFile_state env fuel st id typ size md5 http name code
      st' (Except.ok bytes) h).2.2 bytes rfl).1
  · intro http st' r h
    obtain ⟨_, herr, hok⟩ := downloadFile_state env fuel st id typ size md5
      http name code st' r h
    rcases r with e | bytes
    · rcases herr e rfl with ⟨hc, _⟩ | ⟨_, bytes, hb, hforms⟩
      · exact Or.inl hc
      · exact Or.inr ⟨bytes, hb, hforms⟩
    · obtain ⟨hb, _, _, hforms⟩ := hok bytes rfl
      exact Or.inr ⟨bytes, hb, hforms⟩

/-- Witness for C4: a 3-byte chunked transfer whose accumulated bytes
`[1, 2, 3]` hash to `[3]` while the descriptor demands `[9]`: the
download fails and both index forms are untouched. -/
theorem download_hash_mismatch_unchanged_witness :
    xmdsLoop ⟨fun l => [l.length], none, fun _ => Except.ok [1, 2, 3],
        Except.error (), Except.error (), SaveResult.ok⟩ 3 5 0 [] =
      some (Except.ok [1, 2, 3]) ∧
    ([3] : List Nat) ≠ [9] ∧
    (∃ st', downloadFile ⟨fun l => [l.length], none,
        fun _ => Except.ok [1, 2, 3], Except.error (), Except.error (),
        SaveResult.ok⟩ 5 ⟨[], none, []⟩ 1 "media" 3 [9] false "f.bin" none =
          some (st', Except.error ()) ∧
        st'.content = [] ∧ st'.persisted = none) :=
  ⟨rfl, by decide,
   (download_hash_mismatch_unchanged ⟨fun l => [l.length], none,
      fun _ => Except.ok [1, 2, 3], Except.error (), Except.error (),
      SaveResult.ok⟩ 5 ⟨[], none, []⟩ 1 "media" 3 [9] "f.bin" none).1
     [1, 2, 3] rfl (by decide)⟩

/-- The `purge_some` loop preserves the index⊆disk invariant: an entry is
dropped only together with its file, and a removal failure aborts before
touching either. -/
theorem purgeSomeLoop_preserves (rm : String → Bool) :
    ∀ (names : List String) (st : CacheState) (changed : Bool)
      (st' : CacheState) (ch : Bool) (r : Except Unit Unit),
      purgeSomeLoop rm st changed names = (st', ch, r) →
      IndexOnDisk st → IndexOnDisk st' := by
  intro names
  induction names with
  | nil =>
    intro st changed st' ch r h hinv
    unfold purgeSomeLoop at h
    injection h with h1 h2
    subst h1
    exact hinv
  | cons name rest ih =>
    intro st changed st' ch r h hinv
    unfold purgeSomeLoop at h
    split at h
    · split at h
      · refine ih _ _ _ _ _ h ?_
        intro p hp
        obtain ⟨hpmem, hpne⟩ := mem_removeKey hp
        unfold removeName
        exact List.mem_filter.2 ⟨hinv p hpmem, by simpa using hpne⟩
      · injection h with h1 h2
        subst h1
        exact hinv
    · exact ih _ _ _ _ _ h hinv

/-- C5 (amended): the cache index never tracks a file missing from disk:
`Cache::new` prunes entries whose file is absent, and the invariant is
preserved by every download (successful or failed), by `purge_some`
(successful or failed), and by a successful `purge`.  (A `purge` that
fails midway can break it — see the counterexample.) -/
theorem cache_index_never_tracks_missing_file
    (saved : Option (List (String × Resource))) (dl : List String)
    (clear : Bool) (env : DlEnv) (fuel : Nat) (st : CacheState)
    (req : ReqFile) (rm : String → Bool) (names : List String)
    (h : IndexOnDisk st) :
    IndexOnDisk (cacheNew saved dl clear) ∧
    (∀ st' r, cacheDownload env fuel st req = some (st', r) →
      IndexOnDisk st') ∧
    (∀ st' r, purgeSome rm st names = (st', r) → IndexOnDisk st') ∧
    (∀ st', purgeAll rm st = (st', Except.ok ()) → IndexOnDisk st') := by
  refine ⟨?_, ?_, ?_, ?_⟩
  · intro p hp
    rcases clear with _ | _
    · rcases saved with _ | c
      · simp [cacheNew] at hp
      · simp [cacheNew, List.mem_filter] at hp ⊢
        tauto
    · rcases saved with _ | c <;> simp [cacheNew] at hp
  · intro st' r hdl
    match req with
    | ReqFile.resource id layoutid regionid mediaid updated =>
      unfold cacheDownload at hdl
      injection hdl with hdl
      unfold downloadResource at hdl
      rcases ht : env.resText with e2 | data <;> rw [ht] at hdl
      · injection hdl with h1 h2
        subst h1
        exact h
      · have hmem : ∀ (stx : CacheState),
            stx.content = insertKey st.content (toString id ++ ".html")
              (Resource.resource ⟨id, layoutid, regionid, updated,
                extractMarker "<!-- DURATION=" data,
                extractMarker "<!-- NUMITEMS=" data⟩) →
            stx.disk = addName st.disk (toString id ++ ".html") →
            IndexOnDisk stx := by
          intro stx hc hd2 p hp
          rw [hc] at hp
          rw [hd2]
          rcases mem_insertKey hp with h2 | h2
          · subst h2
            exact self_mem_addName _ _
          · exact mem_addName_of_mem (h p h2)
        rcases hsv : env.save with _ | _ | _ <;> rw [hsv] at hdl <;>
          simp only [applySave] at hdl <;> injection hdl with h1 h2 <;>
          exact hmem st' (by rw [← h1]) (by rw [← h1])
    | ReqFile.file id typ size md5 http path name code =>
      simp only [cacheDownload] at hdl
      rcases hd : downloadFile env fuel st id typ size md5 http name code
        with _ | ⟨st2, r2⟩ <;> rw [hd] at hdl
      · cases hdl
      obtain ⟨dgrow, herr, hok⟩ := downloadFile_state env fuel st id typ
        size md5 http name code st2 r2 hd
      rcases r2 with e2 | bytes2
      · injection hdl with hpair
        injection hpair with ha hb
        rw [← ha]
        rcases herr e2 rfl with ⟨hc, _⟩ | ⟨hn2, bytesv, _, hlay, hmed⟩
        · intro p hp
          rw [hc] at hp
          exact dgrow p.1 (h p hp)
        · intro p hp
          by_cases htyp : typ = "layout"
          · obtain ⟨wh, hcnt⟩ := hlay htyp
            rw [hcnt] at hp
            rcases mem_insertKey hp with h2 | h2
            · subst h2
              exact hn2
            · exact dgrow p.1 (h p h2)
          · have hcnt := hmed htyp
            rw [hcnt] at hp
            rcases mem_insertKey hp with h2 | h2
            · subst h2
              exact hn2
            · exact dgrow p.1 (h p h2)
      · injection hdl with hpair
        injection hpair with ha hb
        obtain ⟨_, hn2, _, hlay, hmed⟩ := hok bytes2 rfl
        rw [← ha]
        intro p hp
        by_cases htyp : typ = "layout"
        · obtain ⟨wh, hcnt⟩ := hlay htyp
          rw [hcnt] at hp
          rcases mem_insertKey hp with h2 | h2
          · subst h2
            exact hn2
          · exact dgrow p.1 (h p h2)
        · have hcnt := hmed htyp
          rw [hcnt] at hp
          rcases mem_insertKey hp with h2 | h2
          · subst h2
            exact hn2
          · exact dgrow p.1 (h p h2)
  · intro st' r hps
    unfold purgeSome at hps
    rcases hl : purgeSomeLoop rm st false names with ⟨stl, chl, rl⟩
    rw [hl] at hps
    have hinv' := purgeSomeLoop_preserves rm names st false stl chl rl hl h
    rcases rl with el | ul
    · simp at hps
      obtain ⟨h1, _⟩ := hps
      subst h1
      exact hinv'
    · rcases chl with _ | _ <;> simp at hps <;> obtain ⟨h1, _⟩ := hps <;>
        rw [← h1] <;> exact hinv'
  · intro st' hpa
    unfold purgeAll at hpa
    rcases hl : purgeAllLoop rm st.disk with ⟨disk', ok⟩
    rw [hl] at hpa
    rcases ok with _ | _
    · simp at hpa
    · simp at hpa
      rw [← hpa]
      intro p hp
      exact absurd hp (List.not_mem_nil p)

/-- C5 counterexample: a full `purge` whose second file removal fails
aborts before clearing the index, leaving entry `"a"` tracked although
its file was already deleted — index and disk disagree after the
operation. -/
theorem purge_failure_index_disk_cex :
    purgeAll (fun n => decide (n = "a"))
      ⟨[("a", Resource.media ⟨1, 1, [0]⟩), ("b", Resource.media ⟨2, 1, [0]⟩)],
        some [], ["a", "b"]⟩ =
      (⟨[("a", Resource.media ⟨1, 1, [0]⟩), ("b", Resource.media ⟨2, 1, [0]⟩)],
        some [], ["b"]⟩, Except.error ()) ∧
    IndexOnDisk ⟨[("a", Resource.media ⟨1, 1, [0]⟩),
      ("b", Resource.media ⟨2, 1, [0]⟩)], some [], ["a", "b"]⟩ ∧
    ¬ IndexOnDisk ⟨[("a", Resource.media ⟨1, 1, [0]⟩),
      ("b", Resource.media ⟨2, 1, [0]⟩)], some [], ["b"]⟩ :=
  ⟨rfl, by decide, by decide⟩

/-- Witness for C5's amended theorem: loading a saved index containing a
tracked file `"x"` and a stale entry `"gone"` over a disk holding only
`"x"` yields an index that tracks only present files. -/
theorem cache_index_never_tracks_missing_file_witness :
    IndexOnDisk ⟨[("x", Resource.media ⟨1, 1, [0]⟩)], none, ["x"]⟩ ∧
    IndexOnDisk (cacheNew
      (some [("x", Resource.media ⟨1, 1, [0]⟩),
        ("gone", Resource.media ⟨2, 1, [0]⟩)]) ["x"] false) :=
  ⟨by decide,
   (cache_index_never_tracks_missing_file
      (some [("x", Resource.media ⟨1, 1, [0]⟩),
        ("gone", Resource.media ⟨2, 1, [0]⟩)]) ["x"] false
      ⟨fun l => l, none, fun _ => Except.error (), Except.error (),
        Except.error (), SaveResult.ok⟩ 0
      ⟨[("x", Resource.media ⟨1, 1, [0]⟩)], none, ["x"]⟩
      (ReqFile.file 1 "media" 1 [0] false "p" "x" none)
      (fun _ => true) [] (by decide)).1⟩

/-- C6: `Cache::has` is false whenever the stored hash of the
corresponding entry differs from the demanded hash (for dynamic
resources: whenever the stored `updated` stamp differs); it is true only
when the stored hash equals the demanded one, and entries enter the
index only through a download whose computed hash matched the demanded
hash. -/
theorem cacheHas_requires_matching_hash (st : CacheState) (env : DlEnv)
    (fuel : Nat) (id : Int) (size : Nat) (md5 : List Nat) (http : Bool)
    (path name : String) (code : Option String)
    (layoutid regionid mediaid updated : Int) :
    (∀ info, getLayout st id = some info → info.md5 ≠ md5 →
      cacheHas st (ReqFile.file id "layout" size md5 http path name code) =
        false) ∧
    (∀ info, getMedia st name = some info → info.md5 ≠ md5 →
      cacheHas st (ReqFile.file id "media" size md5 http path name code) =
        false) ∧
    (∀ info, getResource st id = some info → info.updated ≠ updated →
      cacheHas st (ReqFile.resource id layoutid regionid mediaid updated) =
        false) ∧
    (cacheHas st (ReqFile.file id "layout" size md5 http path name code) =
        true →
      ∃ info, getLayout st id = some info ∧ info.md5 = md5) ∧
    (∀ st' bytes,
      downloadFile env fuel st id "media" size md5 http name code =
        some (st', Except.ok bytes) →
      env.hash bytes = md5 ∧ getMedia st' name = some ⟨id, size, md5⟩) := by
  refine ⟨?_, ?_, ?_, ?_, ?_⟩
  · intro info hinfo hne
    simp [cacheHas, hinfo, hne]
  · intro info hinfo hne
    simp [cacheHas, hinfo, hne]
  · intro info hinfo hne
    simp [cacheHas, hinfo, hne]
  · intro htrue
    simp only [cacheHas, if_pos rfl] at htrue
    rcases hg : getLayout st id with _ | info <;> rw [hg] at htrue
    · cases htrue
    · exact ⟨info, rfl, of_decide_eq_true htrue⟩
  · intro st' bytes hdl
    obtain ⟨_, _, hok⟩ := downloadFile_state env fuel st id "media" size md5
      http name code st' (Except.ok bytes) hdl
    obtain ⟨hhash, _, _, _, hmed⟩ := hok bytes rfl
    have hcnt := hmed (by decide)
    refine ⟨hhash, ?_⟩
    unfold getMedia
    rw [hcnt, lookupKey_insertKey_self]

/-- Witness for C6: an index holding `"f.bin"` with stored hash `[1]`
makes `has` false for a descriptor demanding hash `[2]`. -/
theorem cacheHas_requires_matching_hash_witness :
    getMedia ⟨[("f.bin", Resource.media ⟨1, 3, [1]⟩)], none, ["f.bin"]⟩
        "f.bin" = some ⟨1, 3, [1]⟩ ∧
    cacheHas ⟨[("f.bin", Resource.media ⟨1, 3, [1]⟩)], none, ["f.bin"]⟩
        (ReqFile.file 1 "media" 3 [2] true "p" "f.bin" none) = false :=
  ⟨rfl,
   (cacheHas_requires_matching_hash
      ⟨[("f.bin", Resource.media ⟨1, 3, [1]⟩)], none, ["f.bin"]⟩
      ⟨fun l => l, none, fun _ => Except.error (), Except.error (),
        Except.error (), SaveResult.ok⟩ 0 1 3 [2] true "p" "f.bin" none 0 0 0 0).2.1
     ⟨1, 3, [1]⟩ rfl (by decide)⟩

/-- C10: the chunk loop of `Cache::download_xmds` terminates for every
file size precisely when every successful chunk call returns at least one
byte — under that precondition a fuel of `size - got + 1` iterations
always suffices — and if the chunk call at some offset below `size`
returns an empty chunk, the loop never terminates from that state, for
any iteration bound. -/
theorem download_xmds_chunk_progress (env : DlEnv) (size : Nat) :
    ((∀ g, g < size → env.chunks g ≠ Except.ok []) →
      ∀ fuel got acc, size - got < fuel →
        ∃ r, xmdsLoop env size fuel got acc = some r) ∧
    (∀ fuel g acc, g < size → env.chunks g = Except.ok [] →
      xmdsLoop env size fuel g acc = none) := by
  constructor
  · intro hpos fuel
    induction fuel with
    | zero =>
      intro got acc hlt
      omega
    | succ f ih =>
      intro got acc hlt
      by_cases hge : size ≤ got
      · exact ⟨Except.ok acc, by simp [xmdsLoop, hge]⟩
      · rcases hc : env.chunks got with e | chunk
        · exact ⟨Except.error e, by simp [xmdsLoop, hge, hc]⟩
        · have hne : chunk ≠ [] := by
            intro hnil
            exact hpos got (by omega) (by rw [hc, hnil])
          have hlen : 1 ≤ chunk.length := by
            cases chunk with
            | nil => exact absurd rfl hne
            | cons a t => simp
          obtain ⟨r, hr⟩ := ih (got + chunk.length) (acc ++ chunk) (by omega)
          refine ⟨r, ?_⟩
          simp only [xmdsLoop, hge, if_false, hc]
          simpa [hge] using hr
  · intro fuel
    induction fuel with
    | zero =>
      intro g acc _ _
      rfl
    | succ f ih =>
      intro g acc hlt hc
      have hnle : ¬ size ≤ g := not_le.2 hlt
      simp only [xmdsLoop, hnle, if_false, hc]
      simpa [hnle] using ih g acc hlt hc

/-- Witness for C10: with one-byte chunks a 3-byte transfer terminates
within 4 iterations, and with a permanently empty chunk at offset 0 the
loop makes no progress for any fuel. -/
theorem download_xmds_chunk_progress_witness :
    (∀ g, g < 3 →
      (⟨fun l => l, none, fun _ => Except.ok [7], Except.error (),
        Except.error (), SaveResult.ok⟩ : DlEnv).chunks g ≠ Except.ok []) ∧
    (∃ r, xmdsLoop ⟨fun l => l, none, fun _ => Except.ok [7],
      Except.error (), Except.error (), SaveResult.ok⟩ 3 4 0 [] = some r) ∧
    xmdsLoop ⟨fun l => l, none, fun _ => Except.ok [], Except.error (),
      Except.error (), SaveResult.ok⟩ 5 100 0 [] = none :=
  ⟨fun g _ => by simp,
   (download_xmds_chunk_progress ⟨fun l => l, none, fun _ => Except.ok [7],
      Except.error (), Except.error (), SaveResult.ok⟩ 3).1
     (fun g _ => by simp) 4 0 []
     (by omega),
   (download_xmds_chunk_progress ⟨fun l => l, none, fun _ => Except.ok [],
      Except.error (), Except.error (), SaveResult.ok⟩ 5).2 100 0 []
     (by omega) rfl⟩

/-! ## Schedule persistence (`Schedule::to_file` / `Schedule::from_file`)

`to_file` writes the derived serde serialization of the schedule as JSON;
`from_file` parses it back.  The JSON document is modelled as a value of
an explicit JSON type; the derived codec writes the struct as an object
with its two fields, the interval vector as an array of 4-tuples, and an
instant as a JSON number (the `time` crate's serde representation of an
`OffsetDateTime` is a faithful encoding of the instant; instants are
already modelled as integers throughout this file). -/

/-- A JSON document (the image of `serde_json`). -/
inductive Json where
  | null
  | num (n : Int)
  | str (s : String)
  | arr (items : List Json)
  | obj (fields : List (String × Json))

/-- Serialization of `Option<i64>` (the `default` field). -/
def encOptInt : Option Int → Json
  | none => Json.null
  | some n => Json.num n

/-- Serialization of one `(from, to, layout, priority)` tuple. -/
def encInterval (iv : SchedInterval) : Json :=
  Json.arr [Json.num iv.start, Json.num iv.stop,
    Json.num iv.layout, Json.num iv.prio]

/-- `Schedule::to_file`: the derived `Serialize` writes the two fields in
declaration order. -/
def Schedule.toJson (s : Schedule) : Json :=
  Json.obj [("default", encOptInt s.default),
    ("schedules", Json.arr (s.schedules.map encInterval))]

/-- Deserialization of `Option<i64>`. -/
def decOptInt : Json → Option (Option Int)
  | Json.null => some none
  | Json.num n => some (some n)
  | _ => none

/-- Deserialization of one interval tuple. -/
def decInterval : Json → Option SchedInterval
  | Json.arr [Json.num a, Json.num b, Json.num c, Json.num d] =>
    some ⟨a, b, c, d⟩
  | _ => none

/-- Deserialization of the interval sequence, element by element. -/
def decIntervalList : List Json → Option (List SchedInterval)
  | [] => some []
  | j :: t => do
    let iv ← decInterval j
    let rest ← decIntervalList t
    some (iv :: rest)

/-- `Schedule::from_file`: the derived `Deserialize` locates both fields
in the object and rebuilds the struct, failing on any shape mismatch. -/
def Schedule.fromJson (j : Json) : Option Schedule :=
  match j with
  | Json.obj fields => do
    let dj ← (fields.find? (fun p => decide (p.1 = "default"))).map (·.2)
    let sj ← (fields.find? (fun p => decide (p.1 = "schedules"))).map (·.2)
    let dflt ← decOptInt dj
    match sj with
    | Json.arr items => do
      let scheds ← decIntervalList items
      some ⟨dflt, scheds⟩
    | _ => none
  | _ => none

theorem decInterval_encInterval (iv : SchedInterval) :
    decInterval (encInterval iv) = some iv := rfl

theorem decIntervalList_encInterval (l : List SchedInterval) :
    decIntervalList (l.map encInterval) = some l := by
  induction l with
  | nil => rfl
  | cons iv t ih =>
    simp [decIntervalList, decInterval_encInterval, ih]

/-- C8: persisting a schedule and loading it back yields an equal
schedule — the same default layout and the same interval list. -/
theorem schedule_roundtrip (s : Schedule) :
    Schedule.fromJson (Schedule.toJson s) = some s := by
  rcases s with ⟨dflt, scheds⟩
  simp only [Schedule.toJson, Schedule.fromJson, List.find?, encOptInt]
  rcases dflt with _ | d <;>
    simp [Schedule.fromJson, decOptInt, decIntervalList_encInterval]

/-! ## Registration and startup (`Cms::register_display`,
`Handler::new`)

`register_display` parses the activation message: a result code other
than `"READY"` is a successful call returning no settings; transport or
parse failures are errors.  `Handler::new` classifies its startup
failures: an unreachable CMS (without offline fallback) is distinct from
the not-yet-authorized state. -/

/-- One named command definition (`Command` in `command.rs`). -/
structure Command where
  command : String
  validate : String
  alerts : String
  deriving Repr, DecidableEq

/-- `PlayerSettings` (`config.rs`, fields populated by
`Cms::register_display`). -/
structure PlayerSettings where
  collect_interval : Nat
  stats_enabled : Bool
  xmr_network_address : String
  log_level : String
  screenshot_interval : Nat
  embedded_server_port : Nat
  prevent_sleep : Bool
  display_name : String
  size_x : Int
  size_y : Int
  pos_x : Int
  pos_y : Int
  commands : List (String × Command)
  deriving Repr, DecidableEq

/-- The observable outcome of the `RegisterDisplay` SOAP exchange: the
transport failed or the activation XML was malformed, or an activation
message with a result code and the parsed settings payload arrived. -/
inductive RegisterResponse where
  | unreachable
  | activation (code : String) (settings : PlayerSettings)

/-- `Cms::register_display`: any transport/parse failure is an error; an
activation whose code is not `"READY"` is a *successful* call returning
no settings; otherwise the settings are returned. -/
def registerDisplay : RegisterResponse → Except Unit (Option PlayerSettings)
  | RegisterResponse.unreachable => Except.error ()
  | RegisterResponse.activation code settings =>
    if code = "READY" then Except.ok (some settings) else Except.ok none

/-- The distinct fatal startup errors of `Handler::new`. -/
inductive StartupError where
  | notReachable
  | noCachedSettings
  | notAuthorized
  deriving Repr, DecidableEq

/-- The startup classification of `Handler::new`: a register error is
fatal unless offline operation is allowed and cached settings exist (a
cached schedule is then also adopted when readable); a successful
register with no settings is the distinct not-authorized fatal error. -/
def handlerNew (registerRes : Except Unit (Option PlayerSettings))
    (allowOffline : Bool) (cachedSettings : Option PlayerSettings)
    (cachedSched : Option Schedule) :
    Except StartupError (PlayerSettings × Schedule) :=
  let res : Except StartupError (Option PlayerSettings × Schedule) :=
    match registerRes with
    | Except.error _ =>
      if !allowOffline then Except.error StartupError.notReachable
      else
        match cachedSettings with
        | some s =>
          Except.ok (some s, cachedSched.getD ⟨none, []⟩)
        | none => Except.error StartupError.noCachedSettings
    | Except.ok r => Except.ok (r, ⟨none, []⟩)
  match res with
  | Except.error e => Except.error e
  | Except.ok (some s, sched) => Except.ok (s, sched)
  | Except.ok (none, _) => Except.error StartupError.notAuthorized

/-- C9: a registration response whose code is not `"READY"` makes
`register()` return successfully with no settings (not an error), and
`Handler::new` then fails with the authorization error, which is distinct
from the connectivity error raised for an unreachable CMS. -/
theorem register_not_authorized_distinct (code : String)
    (settings : PlayerSettings) (allowOffline : Bool)
    (cachedSettings : Option PlayerSettings) (cachedSched : Option Schedule)
    (h : code ≠ "READY") :
    registerDisplay (RegisterResponse.activation code settings) =
      Except.ok none ∧
    handlerNew (Except.ok none) allowOffline cachedSettings cachedSched =
      Except.error StartupError.notAuthorized ∧
    StartupError.notAuthorized ≠ StartupError.notReachable ∧
    handlerNew (Except.error ()) false cachedSettings cachedSched =
      Except.error StartupError.notReachable := by
  refine ⟨?_, rfl, by decide, rfl⟩
  simp [registerDisplay, h]

/-- Witness for C9 at the activation code `"WAITING"`. -/
theorem register_not_authorized_distinct_witness :
    registerDisplay (RegisterResponse.activation "WAITING"
        ⟨900, false, "", "debug", 0, 9696, false, "Xibo", 0, 0, 0, 0, []⟩) =
      Except.ok none ∧
    handlerNew (Except.ok none) true none none =
      Except.error StartupError.notAuthorized :=
  ⟨(register_not_authorized_distinct "WAITING"
      ⟨900, false, "", "debug", 0, 9696, false, "Xibo", 0, 0, 0, 0, []⟩
      true none none (by decide)).1,
   (register_not_authorized_distinct "WAITING"
      ⟨900, false, "", "debug", 0, 9696, false, "Xibo", 0, 0, 0, 0, []⟩
      true none none (by decide)).2.1⟩

end Arexibo
